import Mathlib

/-!
Verification of the CV (cyclic voltammetry) analysis pipeline.

Shallow embedding of the numerical core: JS numbers are modelled as
rationals (exact arithmetic), optional record fields as `Option`,
thrown exceptions as `Except`, and `Math.sqrt` as an explicit function
parameter `sqrtFn` (its value never matters for the properties proved
here, so theorems quantify over it).
-/

namespace CV

/-- Scan direction: `forward` (oxidation, peaks up), `reverse` (reduction, peaks down). -/
inductive Direction where
  | forward
  | reverse
deriving DecidableEq, Repr

/-- Edge-handling strategy of the convolution engine. -/
inductive EdgeMode where
  | mirror
  | constant
  | extend
deriving DecidableEq, Repr

/-- Unit of an integrated peak charge: Coulombs (`C`) or potential×current (`VA`). -/
inductive ChargeUnit where
  | C
  | VA
deriving DecidableEq, Repr

/-- Kind tag of a detected peak. -/
inductive PeakType where
  | oxidation
  | reduction
deriving DecidableEq, Repr

/-- Baseline estimation method selector. -/
inductive BaselineMethod where
  | rubberband
  | linear
  | asls
deriving DecidableEq, Repr

/-- One parsed sample (`types.ts` `DataPoint`): measured potential and current,
with the optional `time` and `appliedPotential` fields used by the analysis. -/
structure DataPoint where
  potential : ℚ
  current : ℚ
  time : Option ℚ := none
  appliedPotential : Option ℚ := none
deriving DecidableEq, Repr

instance : Inhabited DataPoint := ⟨⟨0, 0, none, none⟩⟩

/-- A 2D point handed to the integration engine (`integration.ts` `DataPoint2D`). -/
structure DataPoint2D where
  x : ℚ
  y : ℚ
deriving DecidableEq, Repr

instance : Inhabited DataPoint2D := ⟨⟨0, 0⟩⟩

/-- The tunable analysis parameters (`types.ts` `AnalysisConfig`). -/
structure AnalysisConfig where
  smoothingEnabled : Bool
  smoothingWindow : ℕ
  baselineMethod : BaselineMethod
  aslsLambda : ℚ
  aslsP : ℚ
  rubberbandIterations : ℕ
  rubberbandWindowSize : ℕ
  linearAnchorFraction : ℚ
  peakProminenceThreshold : ℚ
deriving Repr

/-! ### Convolution engine (`convolution.ts`) -/

/-- Result of `convolve`. -/
structure ConvolutionResult where
  result : List ℚ
  edgeHandling : EdgeMode
  warnings : List String
deriving Repr

/-- `getDataValue`: window access with edge handling.  The raw index may be
negative, hence `ℤ`.  Mirror reflects (clamped); constant/extend clamp to the
nearest edge sample. -/
def getDataValue (data : List ℚ) (index : ℤ) (edgeHandling : EdgeMode) : ℚ :=
  if 0 ≤ index ∧ index < (data.length : ℤ) then
    data.getD index.toNat 0
  else
    match edgeHandling with
    | .mirror =>
        if index < 0 then
          data.getD (min index.natAbs (data.length - 1)) 0
        else
          data.getD (Int.toNat (max 0 (2 * (data.length : ℤ) - index - 2))) 0
    | .constant => if index < 0 then data.getD 0 0 else data.getD (data.length - 1) 0
    | .extend => if index < 0 then data.getD 0 0 else data.getD (data.length - 1) 0

/-- `convolve`: 1D sliding dot product of `kernel` with `data` windows centred
at each position.  Empty data or kernel is a fatal error; a kernel longer than
the data is only a warning.  (Non-finite values cannot arise over `ℚ`, so the
NaN checks of the source are vacuous here.) -/
def convolve (data kernel : List ℚ) (edgeHandling : EdgeMode) :
    Except String ConvolutionResult :=
  if data = [] then .error "Data must be a non-empty array"
  else if kernel = [] then .error "Kernel must be a non-empty array"
  else
    let warnings :=
      if data.length < kernel.length then
        ["Kernel is larger than data array, results may be unreliable"]
      else []
    let halfKernel := kernel.length / 2
    let result := (List.range data.length).map fun (i : ℕ) =>
      ((List.range kernel.length).map fun (j : ℕ) =>
        getDataValue data ((i : ℤ) - (halfKernel : ℤ) + (j : ℤ)) edgeHandling * kernel.getD j 0).sum
    .ok { result := result, edgeHandling := edgeHandling, warnings := warnings }

/-! ### Savitzky–Golay kernel table (`savitzky-golay-kernels.ts`) -/

/-- One precomputed kernel. -/
structure SGKernel where
  coefficients : List ℚ
  windowSize : ℕ
deriving Repr

/-- Smoothing/derivative kernel pair for one window size. -/
structure SGKernelSet where
  smoothing : SGKernel
  derivative : SGKernel
deriving Repr

def SG_KERNELS_5 : SGKernelSet :=
  { smoothing := ⟨[-3, 12, 17, 12, -3], 5⟩
    derivative := ⟨[-2, -1, 0, 1, 2], 5⟩ }

def SG_KERNELS_9 : SGKernelSet :=
  { smoothing := ⟨[-21, 14, 39, 54, 59, 54, 39, 14, -21], 9⟩
    derivative := ⟨[-4, -3, -2, -1, 0, 1, 2, 3, 4], 9⟩ }

def SG_KERNELS_11 : SGKernelSet :=
  { smoothing := ⟨[-36, 9, 44, 69, 84, 89, 84, 69, 44, 9, -36], 11⟩
    derivative := ⟨[-5, -4, -3, -2, -1, 0, 1, 2, 3, 4, 5], 11⟩ }

def SG_KERNELS_15 : SGKernelSet :=
  { smoothing := ⟨[-78, -13, 42, 87, 122, 147, 162, 167, 162, 147, 122, 87, 42, -13, -78], 15⟩
    derivative := ⟨[-7, -6, -5, -4, -3, -2, -1, 0, 1, 2, 3, 4, 5, 6, 7], 15⟩ }

def SG_KERNELS_21 : SGKernelSet :=
  { smoothing := ⟨[-171, -76, 9, 84, 149, 204, 249, 284, 309, 324, 329, 324, 309,
      284, 249, 204, 149, 84, 9, -76, -171], 21⟩
    derivative := ⟨[-10, -9, -8, -7, -6, -5, -4, -3, -2, -1, 0, 1, 2, 3, 4, 5, 6, 7, 8, 9, 10], 21⟩ }

/-- `SG_KERNEL_REGISTRY`: map from window size to kernel pair (absent key → `none`). -/
def SG_KERNEL_REGISTRY (windowSize : ℕ) : Option SGKernelSet :=
  match windowSize with
  | 5 => some SG_KERNELS_5
  | 9 => some SG_KERNELS_9
  | 11 => some SG_KERNELS_11
  | 15 => some SG_KERNELS_15
  | 21 => some SG_KERNELS_21
  | _ => none

/-- `getNormalizedSmoothingKernel`: coefficients divided by their sum
(the thrown "no smoothing kernel" error becomes `none`). -/
def getNormalizedSmoothingKernel (windowSize : ℕ) : Option (List ℚ) :=
  (SG_KERNEL_REGISTRY windowSize).map fun ks =>
    let coefficients := ks.smoothing.coefficients
    let s := coefficients.sum
    coefficients.map fun val => val / s

/-- `getDerivativeKernel`: raw integer coefficients, not normalized. -/
def getDerivativeKernel (windowSize : ℕ) : Option (List ℚ) :=
  (SG_KERNEL_REGISTRY windowSize).map fun ks => ks.derivative.coefficients

/-! ### Integration engine (`integration.ts`) -/

/-- Integration outcome: signed area and an optional error estimate
(`null` in the source becomes `none`). -/
structure IntegrationResult where
  area : ℚ
  error : Option ℚ
deriving DecidableEq, Repr

/-- The trapezoid accumulation loop of `trapz`: sum of
`(x_{i} − x_{i−1})·(y_{i−1} + y_i)/2` over consecutive pairs. -/
def trapzArea : List DataPoint2D → ℚ
  | p :: q :: rest => (q.x - p.x) * (p.y + q.y) / 2 + trapzArea (q :: rest)
  | _ => 0

/-- The coarse sub-grid of `estimateIntegrationError`: every other point
(indices 0, 2, 4, ...). -/
def everyOther : List DataPoint2D → List DataPoint2D
  | [] => []
  | [a] => [a]
  | a :: _ :: rest => a :: everyOther rest

/-- `estimateIntegrationError`: Richardson extrapolation,
`|coarse − full| / 3` with the coarse trapezoid on every other point. -/
def estimateIntegrationError (points : List DataPoint2D) (fullArea : ℚ) : ℚ :=
  if points.length < 4 then 0
  else |trapzArea (everyOther points) - fullArea| / 3

/-- `trapz`: trapezoidal rule with Richardson error estimate for ≥ 4 points. -/
def trapz (points : List DataPoint2D) : IntegrationResult :=
  if points.length < 2 then { area := 0, error := none }
  else
    let area := trapzArea points
    { area := area
      error := if 4 ≤ points.length then some (estimateIntegrationError points area) else none }

/-- The 1-4-1 accumulation loop of `simpsons` over groups of three points. -/
def simpsonsArea : List DataPoint2D → ℚ
  | p :: q :: r :: rest => (q.x - p.x) / 3 * (p.y + 4 * q.y + r.y) + simpsonsArea (r :: rest)
  | _ => 0

/-- `simpsons`: Simpson's 1/3 rule for an odd point count ≥ 3, otherwise
falls back to `trapz`. -/
def simpsons (points : List DataPoint2D) : IntegrationResult :=
  let n := points.length
  if n < 3 ∨ n % 2 = 0 then trapz points
  else { area := simpsonsArea points, error := none }

/-! ### Smoothing pipeline (`smoothing-pipeline.ts`) -/

/-- Maximum of a list, as JS `Math.max(...)` over a non-empty array. -/
def maxOf (l : List ℚ) : ℚ := l.foldl max (l.headD 0)

/-- Minimum of a list, as JS `Math.min(...)` over a non-empty array. -/
def minOf (l : List ℚ) : ℚ := l.foldl min (l.headD 0)

/-- `calculateStandardDeviation` (all rationals are finite, so the
`isFinite` filter of the source is the identity here). -/
def calculateStandardDeviation (sqrtFn : ℚ → ℚ) (values : List ℚ) : ℚ :=
  if values = [] then 0
  else
    let mean := values.sum / (values.length : ℚ)
    let variance := (values.map fun val => (val - mean) ^ 2).sum / (values.length : ℚ)
    sqrtFn variance

/-- `detectSmoothingArtifacts`: interior positions where the smoothed
first-difference exceeds 3× the original one. -/
def detectSmoothingArtifacts (original smoothed : List ℚ) : ℕ :=
  ((List.range' 2 (smoothed.length - 4)).filter fun i =>
    decide (|original.getD i 0 - original.getD (i - 1) 0| * 3 <
      |smoothed.getD i 0 - smoothed.getD (i - 1) 0|)).length

/-- `calculateAmplitudeRatio`: (smoothed range)/(original range), 1 on a flat original. -/
def calculateAmplitudeRatio (original smoothed : List ℚ) : ℚ :=
  let originalAmplitude := maxOf original - minOf original
  let smoothedAmplitude := maxOf smoothed - minOf smoothed
  if originalAmplitude = 0 then 1 else smoothedAmplitude / originalAmplitude

/-- `validateSmoothingQuality`: advisory warnings on noise reduction,
artifacts and amplitude preservation. -/
def validateSmoothingQuality (sqrtFn : ℚ → ℚ) (original smoothed : List ℚ) : List String :=
  if original.length ≠ smoothed.length then
    ["Original and smoothed arrays have different lengths"]
  else
    let originalStdDev := calculateStandardDeviation sqrtFn original
    let smoothedStdDev := calculateStandardDeviation sqrtFn smoothed
    let noiseReduction := (originalStdDev - smoothedStdDev) / originalStdDev
    (if 9 / 10 < noiseReduction then
      ["Heavy smoothing detected - peaks may be significantly flattened"] else []) ++
    (if noiseReduction < 1 / 10 then
      ["Minimal smoothing detected - noise may still be present"] else []) ++
    (if 0 < detectSmoothingArtifacts original smoothed then
      ["Detected potential smoothing artifacts"] else []) ++
    (let amplitudeRatio := calculateAmplitudeRatio original smoothed
     if amplitudeRatio < 8 / 10 ∨ 12 / 10 < amplitudeRatio then
      ["Smoothing may have distorted peak amplitudes"] else [])

/-- Result of the smoothing stage. -/
structure SmoothingResult where
  smoothedData : List DataPoint
  smoothedCurrent : List ℚ
  warnings : List String
deriving Repr

/-- `applySmoothing`: Savitzky–Golay smoothing of the current values with
mirror edges; the original potentials are preserved and the optional fields
are not copied to the output.  An unsupported window or convolution failure
is caught internally and falls back to the unsmoothed input. -/
def applySmoothing (sqrtFn : ℚ → ℚ) (data : List DataPoint) (config : AnalysisConfig) :
    Except String SmoothingResult :=
  if data = [] then .error "Data must be a non-empty array"
  else
    let warnings :=
      if data.length < config.smoothingWindow then
        ["Data length is smaller than smoothing window. Results may be unreliable."]
      else []
    let currentValues := data.map (·.current)
    let attempt : Except String ConvolutionResult := do
      let kernel ← match getNormalizedSmoothingKernel config.smoothingWindow with
        | some k => Except.ok k
        | none => Except.error "No smoothing kernel available for window size"
      convolve currentValues kernel .mirror
    match attempt with
    | .ok conv =>
        let smoothedCurrent := conv.result
        let smoothedData := data.enum.map fun ip =>
          ({ potential := ip.2.potential,
             current := smoothedCurrent.getD ip.1 ip.2.current } : DataPoint)
        .ok { smoothedData := smoothedData
              smoothedCurrent := smoothedCurrent
              warnings := warnings ++ conv.warnings ++
                validateSmoothingQuality sqrtFn currentValues smoothedCurrent }
    | .error _ =>
        .ok { smoothedData := data
              smoothedCurrent := currentValues
              warnings := warnings ++ ["Smoothing failed"] }

/-! ### Derivative pipeline (`derivative-pipeline.ts`) -/

/-- `calculatePotentialSpacing`: median absolute potential spacing between
consecutive samples, excluding zero spacings; 1 when nothing qualifies. -/
def calculatePotentialSpacing (data : List DataPoint) : ℚ :=
  if data.length < 2 then 1
  else
    let spacings := ((data.zip data.tail).map fun pq =>
      |pq.2.potential - pq.1.potential|).filter fun s => decide (0 < s)
    if spacings = [] then 1
    else
      let sorted := List.insertionSort (· ≤ ·) spacings
      let medianIndex := sorted.length / 2
      if sorted.length % 2 = 0 then
        (sorted.getD (medianIndex - 1) 0 + sorted.getD medianIndex 0) / 2
      else sorted.getD medianIndex 0

/-- Derivative summary statistics. -/
structure DerivativeStatistics where
  maxSlope : ℚ
  minSlope : ℚ
  meanSlope : ℚ
  zeroCrossings : ℕ
deriving Repr

/-- `calculateDerivativeStatistics`: max/min/mean slope and zero-crossing count. -/
def calculateDerivativeStatistics (derivative : List ℚ) : DerivativeStatistics :=
  if derivative = [] then ⟨0, 0, 0, 0⟩
  else
    { maxSlope := maxOf derivative
      minSlope := minOf derivative
      meanSlope := derivative.sum / (derivative.length : ℚ)
      zeroCrossings := ((derivative.zip derivative.tail).filter fun pq =>
        decide ((0 ≤ pq.1 ∧ pq.2 < 0) ∨ (pq.1 < 0 ∧ 0 ≤ pq.2))).length }

/-- `estimateDerivativeNoise`: mean high-frequency deviation over the signal
amplitude. -/
def estimateDerivativeNoise (derivative : List ℚ) : ℚ :=
  if derivative.length < 10 then 1 / 10
  else
    let highFreqComponent := (List.range' 2 (derivative.length - 4)).map fun i =>
      let localMean := (derivative.getD (i - 2) 0 + derivative.getD (i - 1) 0 +
        derivative.getD i 0 + derivative.getD (i + 1) 0 + derivative.getD (i + 2) 0) / 5
      |derivative.getD i 0 - localMean|
    if highFreqComponent = [] then 1 / 10
    else
      let noiseEstimate := highFreqComponent.sum / (highFreqComponent.length : ℚ)
      let signalAmplitude := maxOf derivative - minOf derivative
      if 0 < signalAmplitude then noiseEstimate / signalAmplitude else 0

/-- `validateDerivativeQuality`: advisory warnings about instability, flatness,
tiny spacing and residual noise. -/
def validateDerivativeQuality (sqrtFn : ℚ → ℚ) (derivative : List ℚ)
    (potentialSpacing : ℚ) : List String :=
  if derivative = [] then ["Derivative array is empty"]
  else
    (if 1000000 < |maxOf derivative| ∨ 1000000 < |minOf derivative| then
      ["Extreme derivative values detected - may indicate numerical instability"] else []) ++
    (if calculateStandardDeviation sqrtFn derivative < 1 / 10 ^ 10 then
      ["Derivative is nearly constant - data may be too smooth or linear"] else []) ++
    (if potentialSpacing < 1 / 10 ^ 6 then
      ["Very small potential spacing - derivative scaling may be inaccurate"] else []) ++
    (if 1 / 2 < estimateDerivativeNoise derivative then
      ["High noise level in derivative - consider increasing smoothing window"] else [])

/-- Result of the derivative stage. -/
structure DerivativeResult where
  derivativeCurrent : List ℚ
  derivativeData : List DataPoint
  warnings : List String
  statistics : DerivativeStatistics
deriving Repr

/-- `calculateDerivative`: SG derivative convolution scaled by
`1 / (norm · h)` with `norm = 2·Σ i²` and `h` the median spacing; falls back
to an all-zero derivative when the kernel lookup or convolution fails. -/
def calculateDerivative (sqrtFn : ℚ → ℚ) (data : List DataPoint) (config : AnalysisConfig) :
    Except String DerivativeResult :=
  if data = [] then .error "Data must be a non-empty array"
  else
    let warnings :=
      if data.length < config.smoothingWindow then
        ["Data length is smaller than derivative window. Results may be unreliable."]
      else []
    let currentValues := data.map (·.current)
    let attempt : Except String (List ℚ × ConvolutionResult) := do
      let kernel ← match getDerivativeKernel config.smoothingWindow with
        | some k => Except.ok k
        | none => Except.error "No derivative kernel available for window size"
      let conv ← convolve currentValues kernel .mirror
      Except.ok (kernel, conv)
    match attempt with
    | .ok (kernel, conv) =>
        let potentialSpacing := calculatePotentialSpacing data
        let halfWindow := kernel.length / 2
        let norm := ((List.range' 1 halfWindow).map fun i => (i : ℚ) * i).sum * 2
        let scaleFactor := norm * potentialSpacing
        let scaledDerivative := conv.result.map fun val =>
          if 0 < scaleFactor then val / scaleFactor else 0
        let derivativeData := data.enum.map fun ip =>
          ({ potential := ip.2.potential, current := scaledDerivative.getD ip.1 0 } : DataPoint)
        .ok { derivativeCurrent := scaledDerivative
              derivativeData := derivativeData
              warnings := warnings ++ conv.warnings ++
                validateDerivativeQuality sqrtFn scaledDerivative potentialSpacing
              statistics := calculateDerivativeStatistics scaledDerivative }
    | .error _ =>
        .ok { derivativeCurrent := List.replicate data.length 0
              derivativeData := data.map fun p => { p with current := 0 }
              warnings := warnings ++ ["Derivative calculation failed"]
              statistics := ⟨0, 0, 0, 0⟩ }

/-! ### Baseline fitting (`baseline-fitting.ts`) -/

/-- Rubberband tuning parameters. -/
structure RubberbandConfig where
  iterations : ℕ
  windowSize : ℕ
deriving Repr

def createDefaultRubberbandConfig : RubberbandConfig := ⟨40, 80⟩

/-- The window scan of the erosion/dilation loops: start from `arr[lo]` and
fold `f` over `arr[lo+1..hi]`. -/
def windowFold (f : ℚ → ℚ → ℚ) (arr : List ℚ) (lo hi : ℕ) : ℚ :=
  (List.range' (lo + 1) (hi - lo)).foldl (fun acc j => f acc (arr.getD j 0)) (arr.getD lo 0)

/-- `smoothArray`: moving average with half-window `halfWin`. -/
def smoothArray (arr : List ℚ) (halfWin : ℕ) : List ℚ :=
  let n := arr.length
  (List.range n).map fun i =>
    let lo := i - halfWin
    let hi := min (n - 1) (i + halfWin)
    ((List.range' lo (hi + 1 - lo)).map fun j => arr.getD j 0).sum / ((hi - lo + 1 : ℕ) : ℚ)

/-- One rubberband iteration: erosion (moving min for forward / max for
reverse), dilation (the opposite extremum), then a moving-average smooth. -/
def morphPass (direction : Direction) (halfWin n : ℕ) (envelope : List ℚ) : List ℚ :=
  let eroded := (List.range n).map fun i =>
    windowFold (if direction = .forward then min else max) envelope (i - halfWin)
      (min (n - 1) (i + halfWin))
  let dilated := (List.range n).map fun i =>
    windowFold (if direction = .forward then max else min) eroded (i - halfWin)
      (min (n - 1) (i + halfWin))
  smoothArray dilated halfWin

/-- `rubberbandBaseline`: iterative morphological baseline.  The half-window
is `max(2, min(⌊n·0.05⌋, ⌊windowSize/2⌋))` (`⌊n·0.05⌋ = n / 20` exactly);
after the iterations the envelope is clamped to never cross the data on the
peak side. -/
def rubberbandBaseline (data : List DataPoint) (direction : Direction)
    (config : RubberbandConfig) : List DataPoint :=
  if data.length < 3 then
    data.map fun p => ({ potential := p.potential, current := p.current } : DataPoint)
  else
    let n := data.length
    let halfWin := max 2 (min (n / 20) (config.windowSize / 2))
    let envelope0 := data.map (·.current)
    let envelope := (morphPass direction halfWin n)^[config.iterations] envelope0
    data.enum.map fun ip =>
      ({ potential := ip.2.potential
         current :=
           if direction = .forward then min (envelope.getD ip.1 0) ip.2.current
           else max (envelope.getD ip.1 0) ip.2.current } : DataPoint)

/-- `leastSquares`: closed-form ordinary least squares for `y = mx + b`, with
a horizontal-line fallback when the normal-equation denominator is below
`1e-15` in absolute value. -/
def leastSquares (points : List (ℚ × ℚ)) : ℚ × ℚ :=
  let n : ℚ := points.length
  let sumX := (points.map (·.1)).sum
  let sumY := (points.map (·.2)).sum
  let sumXY := (points.map fun p => p.1 * p.2).sum
  let sumX2 := (points.map fun p => p.1 * p.1).sum
  let denom := n * sumX2 - sumX * sumX
  if |denom| < 1 / 10 ^ 15 then (0, sumY / n)
  else
    let slope := (n * sumXY - sumX * sumY) / denom
    (slope, (sumY - slope * sumX) / n)

/-- `linearBaseline`: least-squares line through anchor points taken from the
first and last `max(2, ⌊n·anchorFraction⌋)` samples. -/
def linearBaseline (data : List DataPoint) (anchorFraction : ℚ) : List DataPoint :=
  if data.length < 3 then
    data.map fun p => ({ potential := p.potential, current := p.current } : DataPoint)
  else
    let n := data.length
    let anchorCount := max 2 ⌊(n : ℚ) * anchorFraction⌋₊
    let anchors := ((data.take anchorCount) ++ (data.drop (n - anchorCount))).map fun p =>
      (p.potential, p.current)
    let sl := leastSquares anchors
    data.map fun p =>
      ({ potential := p.potential, current := sl.1 * p.potential + sl.2 } : DataPoint)

/-- ASLS tuning parameters. -/
structure AslsConfig where
  lambda : ℚ
  p : ℚ
  maxIterations : ℕ
  tolerance : ℚ
deriving Repr

def createDefaultAslsConfig : AslsConfig :=
  ⟨1000000, 1 / 100, 20, 1 / 10 ^ 6⟩

/-- Main-diagonal assembly of `solvePentadiagonal`:
`a[i] = w[i] + λ·dtd` with `dtd ∈ {1, 5, 6}` by position. -/
def aslsBandA (w : ℕ → ℚ) (lambda : ℚ) (n i : ℕ) : ℚ :=
  w i + lambda * (if i = 0 ∨ i = n - 1 then 1 else if i = 1 ∨ i = n - 2 then 5 else 6)

/-- First sub-diagonal assembly of `solvePentadiagonal`:
`e[i] = λ·(−2)` at the ends, `λ·(−4)` inside (defined for `i < n − 1`). -/
def aslsBandE (lambda : ℚ) (n i : ℕ) : ℚ :=
  if i = 0 ∨ i = n - 2 then lambda * (-2) else lambda * (-4)

/-- Second sub-diagonal assembly of `solvePentadiagonal`: constant `λ`
(defined for `i < n − 2`). -/
def aslsBandF (lambda : ℚ) : ℚ := lambda

/-- Functional update of one list position (in-place array write of the source). -/
def listSet : List ℚ → ℕ → ℚ → List ℚ
  | [], _, _ => []
  | _ :: t, 0, v => v :: t
  | h :: t, Nat.succ m, v => h :: listSet t m v

/-- `solvePentadiagonal`: assemble the three bands of `W + λ·D₂ᵀD₂`, run the
banded Cholesky factorisation column by column (pivots clamped to `1e-30`
before the square root), then forward and back substitution. -/
def solvePentadiagonal (sqrtFn : ℚ → ℚ) (y w : List ℚ) (lambda : ℚ) (n : ℕ) : List ℚ :=
  let a0 := (List.range n).map fun i => aslsBandA (fun j => w.getD j 0) lambda n i
  let e0 := (List.range (n - 1)).map fun i => aslsBandE lambda n i
  let f0 := (List.range (n - 2)).map fun _ => aslsBandF lambda
  -- Banded Cholesky, column j = 0..n-1; a, e, f are updated in place.
  let fact := (List.range n).foldl (fun (acc : List ℚ × List ℚ × List ℚ) j =>
    let (a, e, f) := acc
    let aj := a.getD j 0
    let aj := if 1 ≤ j then aj - e.getD (j - 1) 0 * e.getD (j - 1) 0 else aj
    let aj := if 2 ≤ j then aj - f.getD (j - 2) 0 * f.getD (j - 2) 0 else aj
    let aj := sqrtFn (max aj (1 / 10 ^ 30))
    let a := listSet a j aj
    let e :=
      if j < n - 1 then
        let ej := e.getD j 0
        let ej := if 1 ≤ j then ej - e.getD (j - 1) 0 * f.getD (j - 1) 0 else ej
        listSet e j (ej / aj)
      else e
    let f := if j < n - 2 then listSet f j (f.getD j 0 / aj) else f
    (a, e, f)) (a0, e0, f0)
  let a := fact.1
  let e := fact.2.1
  let f := fact.2.2
  -- Forward substitution: L·g = W·y.
  let g := (List.range n).foldl (fun (g : List ℚ) i =>
    let val := w.getD i 0 * y.getD i 0
    let val := if 1 ≤ i then val - e.getD (i - 1) 0 * g.getD (i - 1) 0 else val
    let val := if 2 ≤ i then val - f.getD (i - 2) 0 * g.getD (i - 2) 0 else val
    g ++ [val / a.getD i 0]) []
  -- Back substitution: Lᵀ·z = g, filled from the right.
  let z := (List.range n).foldl (fun (z : List ℚ) k =>
    let i := n - 1 - k
    let val := g.getD i 0
    let val := if i + 1 < n then val - e.getD i 0 * z.getD 0 0 else val
    let val := if i + 2 < n then val - f.getD i 0 * z.getD 1 0 else val
    (val / a.getD i 0) :: z) []
  z

/-- The ASLS reweighting loop: solve, recompute the asymmetric weights, stop
early when the largest weight change is below the tolerance. -/
def aslsLoop (sqrtFn : ℚ → ℚ) (y : List ℚ) (lambda pAbove pBelow tolerance : ℚ)
    (n : ℕ) : ℕ → List ℚ → List ℚ → List ℚ
  | 0, _, z => z
  | Nat.succ k, w, _ =>
    let z := solvePentadiagonal sqrtFn y w lambda n
    let wNew := List.zipWith (fun yi zi => if zi < yi then pAbove else pBelow) y z
    let maxChange := (List.zipWith (fun a b => |a - b|) wNew w).foldl max 0
    if maxChange < tolerance then z else aslsLoop sqrtFn y lambda pAbove pBelow tolerance n k wNew z

/-- `aslsBaseline`: asymmetric least squares baseline (Eilers–Boelens); the
asymmetry is flipped for reverse scans. -/
def aslsBaseline (sqrtFn : ℚ → ℚ) (data : List DataPoint) (direction : Direction)
    (config : AslsConfig) : List DataPoint :=
  let n := data.length
  if n < 5 then
    data.map fun p => ({ potential := p.potential, current := p.current } : DataPoint)
  else
    let y := data.map (·.current)
    let pAbove := if direction = .forward then config.p else 1 - config.p
    let pBelow := 1 - pAbove
    let w0 := List.replicate n (1 : ℚ)
    let z := aslsLoop sqrtFn y config.lambda pAbove pBelow config.tolerance n
      config.maxIterations w0 y
    data.enum.map fun ip =>
      ({ potential := ip.2.potential, current := z.getD ip.1 0 } : DataPoint)

/-- `computeBaseline`: dispatch on the configured baseline method
(unknown methods cannot arise over the closed `BaselineMethod` type;
the source defaults them to rubberband). -/
def computeBaseline (sqrtFn : ℚ → ℚ) (data : List DataPoint) (direction : Direction)
    (config : AnalysisConfig) : List DataPoint :=
  match config.baselineMethod with
  | .linear => linearBaseline data config.linearAnchorFraction
  | .asls => aslsBaseline sqrtFn data direction
      ⟨config.aslsLambda, config.aslsP, 20, 1 / 10 ^ 6⟩
  | .rubberband => rubberbandBaseline data direction
      ⟨config.rubberbandIterations, config.rubberbandWindowSize⟩

/-! ### Unified CV analysis pipeline (`cv-analysis.ts`) -/

/-- One detected peak (`CVPeakResult`). -/
structure CVPeakResult where
  index : ℕ
  potential : ℚ
  current : ℚ
  rawCurrent : ℚ
  height : ℚ
  area : ℚ
  chargeUnit : ChargeUnit
  startIndex : ℕ
  endIndex : ℕ
  startPotential : ℚ
  endPotential : ℚ
  type : PeakType
deriving DecidableEq, Repr

/-- Result of one scan analysis (`CVScanResult`). -/
structure CVScanResult where
  smoothed : List DataPoint
  derivative : List ℚ
  baseline : List DataPoint
  peaks : List CVPeakResult
  warnings : List String
deriving Repr

/-- A peak candidate during detection: apex index, corrected magnitude and
prominence. -/
structure PeakCandidate where
  index : ℕ
  magnitude : ℚ
  prominence : ℚ
deriving DecidableEq, Repr

/-- One sideways walk of `computeProminence`: update the valley with each
value, stop as soon as a value beyond the apex value is seen. -/
def valleyWalk (corrected : List ℚ) (peakVal : ℚ) (isMax : Bool) :
    List ℕ → ℚ → ℚ
  | [], valley => valley
  | i :: rest, valley =>
    let v := corrected.getD i 0
    if isMax then
      let valley := min valley v
      if peakVal < v then valley else valleyWalk corrected peakVal isMax rest valley
    else
      let valley := max valley v
      if v < peakVal then valley else valleyWalk corrected peakVal isMax rest valley

/-- `computeProminence`: apex value minus the higher of the two side valleys
(mirrored for minima). -/
def computeProminence (corrected : List ℚ) (peakIdx : ℕ) (isMax : Bool) : ℚ :=
  let peakVal := corrected.getD peakIdx 0
  let leftValley := valleyWalk corrected peakVal isMax (List.range peakIdx).reverse peakVal
  let rightValley := valleyWalk corrected peakVal isMax
    (List.range' (peakIdx + 1) (corrected.length - (peakIdx + 1))) peakVal
  if isMax then peakVal - max leftValley rightValley
  else min leftValley rightValley - peakVal

/-- The inner absorption loop of `mergePeaks` for one anchor apex: nearby
unused apexes are marked used; a more prominent one takes over as `best`
(burying the previous best's index). -/
def mergeInner (peakIdx minSeparation : ℕ) :
    List PeakCandidate → PeakCandidate → Finset ℕ → PeakCandidate × Finset ℕ
  | [], best, used => (best, used)
  | other :: rest, best, used =>
    if other.index = peakIdx ∨ other.index ∈ used then
      mergeInner peakIdx minSeparation rest best used
    else if Nat.dist other.index peakIdx < minSeparation then
      let used' := insert other.index used
      if best.prominence < other.prominence then
        mergeInner peakIdx minSeparation rest other (insert best.index used')
      else mergeInner peakIdx minSeparation rest best used'
    else mergeInner peakIdx minSeparation rest best used

/-- The outer loop of `mergePeaks`: skip used apexes, absorb the
neighbourhood of each remaining one, emit the surviving best. -/
def mergeOuter (allPeaks : List PeakCandidate) (minSeparation : ℕ) :
    List PeakCandidate → Finset ℕ → List PeakCandidate
  | [], _ => []
  | peak :: rest, used =>
    if peak.index ∈ used then mergeOuter allPeaks minSeparation rest used
    else
      let r := mergeInner peak.index minSeparation allPeaks peak used
      r.1 :: mergeOuter allPeaks minSeparation rest (insert r.1.index r.2)

/-- `mergePeaks`: merge apexes closer than `minSeparation` indices, keeping
the more prominent one. -/
def mergePeaks (peaks : List PeakCandidate) (minSeparation : ℕ) : List PeakCandidate :=
  if peaks.length ≤ 1 then peaks
  else mergeOuter peaks minSeparation peaks ∅

/-- One sideways walk of `findPeakBoundaries`: the last visited index, or the
first index whose corrected value crossed zero. -/
def boundaryWalk (corrected : List ℚ) (stop : ℚ → Bool) : List ℕ → ℕ → ℕ
  | [], last => last
  | i :: rest, _ =>
    if stop (corrected.getD i 0) then i else boundaryWalk corrected stop rest i

/-- `findPeakBoundaries`: walk outward from the apex until the corrected
signal crosses zero, or to the data edge. -/
def findPeakBoundaries (corrected : List ℚ) (peakIdx : ℕ) (isMax : Bool) : ℕ × ℕ :=
  let n := corrected.length
  let stop : ℚ → Bool := fun v => if isMax then decide (v ≤ 0) else decide (0 ≤ v)
  let startIndex := boundaryWalk corrected stop (List.range peakIdx).reverse peakIdx
  let endIndex := boundaryWalk corrected stop
    (List.range' (peakIdx + 1) (n - (peakIdx + 1))) peakIdx
  (startIndex, endIndex)

/-- `buildEndpointBaseline`: straight line joining the first and last sample
(fallback when baseline fitting fails). -/
def buildEndpointBaseline (data : List DataPoint) : List DataPoint :=
  if data.length < 2 then
    data.map fun p => ({ potential := p.potential, current := 0 } : DataPoint)
  else
    let first := data.headD default
    let last := data.getLastD default
    let potentialRange := last.potential - first.potential
    if |potentialRange| < 1 / 10 ^ 10 then
      let avg := (first.current + last.current) / 2
      data.map fun p => ({ potential := p.potential, current := avg } : DataPoint)
    else
      let slope := (last.current - first.current) / potentialRange
      let intercept := first.current - slope * first.potential
      data.map fun p =>
        ({ potential := p.potential, current := slope * p.potential + intercept } : DataPoint)

/-- `interpolatePeakPotential`: parabolic three-point interpolation of the
apex potential on the corrected signal. -/
def interpolatePeakPotential (smoothed : List DataPoint) (corrected : List ℚ)
    (peakIdx : ℕ) : ℚ :=
  if peakIdx = 0 ∨ corrected.length - 1 ≤ peakIdx then
    (smoothed.getD peakIdx default).potential
  else
    let yL := corrected.getD (peakIdx - 1) 0
    let yC := corrected.getD peakIdx 0
    let yR := corrected.getD (peakIdx + 1) 0
    let denom := 2 * (2 * yC - yL - yR)
    if |denom| < 1 / 10 ^ 30 then (smoothed.getD peakIdx default).potential
    else
      let offset := (yL - yR) / denom
      let eL := (smoothed.getD (peakIdx - 1) default).potential
      let eC := (smoothed.getD peakIdx default).potential
      let eR := (smoothed.getD (peakIdx + 1) default).potential
      if 0 ≤ offset then eC + offset * (eR - eC) else eC + offset * (eC - eL)

/-- The `smoothed[0]?.time !== undefined` check of `findCVPeaks`. -/
def headHasTime (l : List DataPoint) : Bool :=
  match l.head? with
  | some p => p.time.isSome
  | none => false

/-- `buildIntegrationPoints`: (x, y) points over `[startIndex, endIndex]`
(stopping at the data edge) with `y` the baseline-corrected current and `x`
chosen per sample: time when `useTime` is set and the sample has one, the
potential otherwise. -/
def buildIntegrationPoints (data baseline : List DataPoint)
    (startIndex endIndex : ℕ) (useTime : Bool) : List DataPoint2D :=
  ((List.range' startIndex (endIndex + 1 - startIndex)).filter fun i =>
      decide (i < data.length)).map fun i =>
    let p := data.getD i default
    { x := if useTime ∧ p.time.isSome then p.time.getD 0 else p.potential
      y := p.current - (baseline.getD i default).current }

/-- `integratePeakArea`: absolute Simpson area of the integration points
(odd count ≥ 3), else trapezoidal; 0 below two points. -/
def integratePeakArea (data baseline : List DataPoint)
    (startIndex endIndex : ℕ) (useTime : Bool) : ℚ :=
  let pts := buildIntegrationPoints data baseline startIndex endIndex useTime
  if pts.length < 2 then 0
  else
    let result := if 3 ≤ pts.length ∧ pts.length % 2 = 1 then simpsons pts else trapz pts
    |result.area|

instance : DecidableRel (fun a b : PeakCandidate => b.prominence ≤ a.prominence) :=
  fun a b => inferInstanceAs (Decidable (b.prominence ≤ a.prominence))

instance : DecidableRel (fun a b : CVPeakResult => a.potential ≤ b.potential) :=
  fun a b => inferInstanceAs (Decidable (a.potential ≤ b.potential))

instance : DecidableRel (fun a b : CVPeakResult => b.potential ≤ a.potential) :=
  fun a b => inferInstanceAs (Decidable (b.potential ≤ a.potential))

/-- The candidate-extrema scan of `findCVPeaks`: interior strict local maxima
with positive corrected value (oxidation) or strict local minima with
negative corrected value (reduction), paired with their magnitude. -/
def findCVCandidates (corrected : List ℚ) (isOxidation : Bool) : List (ℕ × ℚ) :=
  (List.range' 1 (corrected.length - 2)).filterMap fun i =>
    if isOxidation then
      if corrected.getD (i - 1) 0 < corrected.getD i 0 ∧
          corrected.getD (i + 1) 0 < corrected.getD i 0 ∧
          0 < corrected.getD i 0 then
        some (i, corrected.getD i 0)
      else none
    else
      if corrected.getD i 0 < corrected.getD (i - 1) 0 ∧
          corrected.getD i 0 < corrected.getD (i + 1) 0 ∧
          corrected.getD i 0 < 0 then
        some (i, |corrected.getD i 0|)
      else none

/-- The per-peak record construction of `findCVPeaks`: boundaries, parabolic
apex potential, baseline-corrected height, integrated charge and unit. -/
def buildPeakRecord (smoothed baseline : List DataPoint) (corrected : List ℚ)
    (isOxidation hasTime : Bool) (peak : PeakCandidate) : CVPeakResult :=
  let bounds := findPeakBoundaries corrected peak.index isOxidation
  { index := peak.index
    potential := interpolatePeakPotential smoothed corrected peak.index
    current := (smoothed.getD peak.index default).current
    rawCurrent := (smoothed.getD peak.index default).current
    height := |corrected.getD peak.index 0|
    area := integratePeakArea smoothed baseline bounds.1 bounds.2 hasTime
    chargeUnit := if hasTime then ChargeUnit.C else ChargeUnit.VA
    startIndex := bounds.1
    endIndex := bounds.2
    startPotential := (smoothed.getD bounds.1 default).potential
    endPotential := (smoothed.getD bounds.2 default).potential
    type := if isOxidation then PeakType.oxidation else PeakType.reduction }

/-- `findCVPeaks`: candidate extrema of the corrected signal, prominence
filtering against `threshold × max magnitude`, proximity merging, boundary
detection, apex interpolation and charge integration, sorted by potential. -/
def findCVPeaks (smoothed baseline : List DataPoint) (corrected : List ℚ)
    (direction : Direction) (prominenceThreshold : ℚ) : List CVPeakResult :=
  let n := corrected.length
  if n < 5 then []
  else
    let isOxidation : Bool := direction == Direction.forward
    let candidates := findCVCandidates corrected isOxidation
    if candidates = [] then []
    else
      let maxMag := (candidates.map (·.2)).foldl max 0
      let minProminence := maxMag * prominenceThreshold
      let withProminence := (candidates.map fun c =>
          (⟨c.1, c.2, computeProminence corrected c.1 isOxidation⟩ : PeakCandidate)).filter
        fun c => decide (minProminence ≤ c.prominence)
      let sortedPeaks :=
        List.insertionSort (fun a b => b.prominence ≤ a.prominence) withProminence
      -- ⌊n·0.02⌋ = n / 50 exactly.
      let minSeparation := max 5 (n / 50)
      let merged := mergePeaks sortedPeaks minSeparation
      let hasTime := headHasTime smoothed
      let peaks := merged.map (buildPeakRecord smoothed baseline corrected isOxidation hasTime)
      if isOxidation then List.insertionSort (fun a b => a.potential ≤ b.potential) peaks
      else List.insertionSort (fun a b => b.potential ≤ a.potential) peaks

/-- `analyzeCVScan`: the orchestrator — smoothing (optional, with raw-data
fallback), derivative (zero-array fallback), baseline, correction and peak
detection.  Over `ℚ` the baseline stage is total, so its endpoint-line
fallback branch of the source cannot trigger. -/
def analyzeCVScan (sqrtFn : ℚ → ℚ) (scanData : List DataPoint)
    (config : AnalysisConfig) (scanDirection : Direction) : CVScanResult :=
  if scanData = [] then
    { smoothed := [], derivative := [], baseline := [], peaks := [], warnings := [] }
  else
    let sm : List DataPoint × List String :=
      if config.smoothingEnabled then
        match applySmoothing sqrtFn scanData config with
        | .ok r => (r.smoothedData, r.warnings)
        | .error _ => (scanData, ["Smoothing failed, using raw data"])
      else (scanData, [])
    let smoothed := sm.1
    let dv : List ℚ × List String :=
      match calculateDerivative sqrtFn smoothed config with
      | .ok r => (r.derivativeCurrent, r.warnings)
      | .error _ => (List.replicate smoothed.length 0, ["Derivative calculation failed"])
    let baseline := computeBaseline sqrtFn smoothed scanDirection config
    let corrected := smoothed.enum.map fun ip =>
      ip.2.current - (baseline.getD ip.1 default).current
    let peaks := findCVPeaks smoothed baseline corrected scanDirection
      config.peakProminenceThreshold
    { smoothed := smoothed
      derivative := dv.1
      baseline := baseline
      peaks := peaks
      warnings := sm.2 ++ dv.2 }

/-! ### Claim C10: empty input -/

/-- C10: for an empty input scan, `analyzeCVScan` returns an empty result —
empty smoothed, derivative, baseline and peak sequences and an empty warning
list — for every square-root interpretation, configuration and direction. -/
theorem analyzeCVScan_empty (sqrtFn : ℚ → ℚ) (config : AnalysisConfig)
    (direction : Direction) :
    analyzeCVScan sqrtFn [] config direction =
      { smoothed := [], derivative := [], baseline := [], peaks := [], warnings := [] } := by
  simp [analyzeCVScan]

/-! ### Claim C7: kernel table properties -/

/-- The window sizes present in the kernel registry. -/
def supportedWindows : List ℕ := [5, 9, 11, 15, 21]

/-- C7: for every supported window size, the normalized smoothing kernel sums
to 1 within 1e-9, and the derivative kernel is antisymmetric about its center
(the coefficient at offset +k is the negation of the one at −k, so the center
coefficient is 0). -/
theorem sg_kernel_table_properties :
    ∀ w ∈ supportedWindows,
      (getNormalizedSmoothingKernel w).isSome ∧
      |((getNormalizedSmoothingKernel w).getD []).sum - 1| ≤ 1 / 10 ^ 9 ∧
      (getDerivativeKernel w).isSome ∧
      ((getDerivativeKernel w).getD []).length = w ∧
      ∀ k ≤ w / 2,
        ((getDerivativeKernel w).getD []).getD (w / 2 + k) 0 =
          -(((getDerivativeKernel w).getD []).getD (w / 2 - k) 0) := by
  intro w hw
  fin_cases hw <;>
    refine ⟨by decide, ?_, by decide, by decide, by decide⟩ <;>
    · rw [show ((getNormalizedSmoothingKernel _).getD []).sum = 1 by
        norm_num [getNormalizedSmoothingKernel, SG_KERNEL_REGISTRY, SG_KERNELS_5,
          SG_KERNELS_9, SG_KERNELS_11, SG_KERNELS_15, SG_KERNELS_21]]
      norm_num

/-- C7 witness: the kernel-table properties hold at window size 9. -/
theorem sg_kernel_table_properties_witness :
    (9 ∈ supportedWindows) ∧
      ((getNormalizedSmoothingKernel 9).isSome ∧
        |((getNormalizedSmoothingKernel 9).getD []).sum - 1| ≤ 1 / 10 ^ 9 ∧
        (getDerivativeKernel 9).isSome ∧
        ((getDerivativeKernel 9).getD []).length = 9 ∧
        ∀ k ≤ 9 / 2,
          ((getDerivativeKernel 9).getD []).getD (9 / 2 + k) 0 =
            -(((getDerivativeKernel 9).getD []).getD (9 / 2 - k) 0)) :=
  ⟨by decide, sg_kernel_table_properties 9 (by decide)⟩

/-! ### Claim C8: Richardson error estimate of `trapz` -/

/-- C8: `trapz` returns a non-null error estimate exactly for ≥ 4 points, and
then the estimate is `|coarse − full| / 3` with the coarse trapezoid taken
over every other point. -/
theorem trapz_error_iff_and_value (points : List DataPoint2D) :
    ((trapz points).error ≠ none ↔ 4 ≤ points.length) ∧
    (4 ≤ points.length →
      (trapz points).error =
        some (|trapzArea (everyOther points) - trapzArea points| / 3)) := by
  by_cases h2 : points.length < 2
  · have h4 : ¬ 4 ≤ points.length := by omega
    simp [trapz, h2, h4]
  · by_cases h4 : 4 ≤ points.length
    · have hlt : ¬ points.length < 4 := by omega
      simp [trapz, h2, h4, estimateIntegrationError, hlt]
    · simp [trapz, h2, h4]

/-- C8 witness: on a concrete 4-point list the error estimate is present and
has the Richardson value. -/
theorem trapz_error_iff_and_value_witness :
    (4 ≤ ([⟨0, 1⟩, ⟨1, 2⟩, ⟨2, 3⟩, ⟨3, 4⟩] : List DataPoint2D).length) ∧
    (trapz [⟨0, 1⟩, ⟨1, 2⟩, ⟨2, 3⟩, ⟨3, 4⟩]).error =
      some (|trapzArea (everyOther [⟨0, 1⟩, ⟨1, 2⟩, ⟨2, 3⟩, ⟨3, 4⟩]) -
        trapzArea [⟨0, 1⟩, ⟨1, 2⟩, ⟨2, 3⟩, ⟨3, 4⟩]| / 3) :=
  ⟨by decide,
    (trapz_error_iff_and_value [⟨0, 1⟩, ⟨1, 2⟩, ⟨2, 3⟩, ⟨3, 4⟩]).2 (by decide)⟩

/-! ### Claim C9: integration of the constant function y = 1 over [0, 10] -/

/-- The `i`-th of `k` uniformly spaced unit-height samples over `[0, 10]`. -/
def uniformUnitSample (k i : ℕ) : DataPoint2D :=
  ⟨10 * (i : ℚ) / ((k : ℚ) - 1), 1⟩

/-- `k` uniformly spaced samples of `y = 1` over `x ∈ [0, 10]`. -/
def uniformUnitPoints (k : ℕ) : List DataPoint2D :=
  (List.range k).map (uniformUnitSample k)

/-- Telescoping of the trapezoid sum over `m + 1` uniform unit-height points. -/
theorem trapzArea_uniform_unit (k : ℕ) :
    ∀ (m j : ℕ),
      trapzArea ((List.range' j (m + 1)).map (uniformUnitSample k)) =
        10 * ((j : ℚ) + m) / ((k : ℚ) - 1) - 10 * (j : ℚ) / ((k : ℚ) - 1) := by
  intro m
  induction m with
  | zero => intro j; simp [List.range', trapzArea]
  | succ m ih =>
    intro j
    rw [show List.range' j (m + 1 + 1) = j :: List.range' (j + 1) (m + 1) from rfl,
      List.map_cons,
      show List.range' (j + 1) (m + 1) = (j + 1) :: List.range' (j + 2) m from rfl,
      List.map_cons, trapzArea, ← List.map_cons,
      show (j + 1) :: List.range' (j + 2) m = List.range' (j + 1) (m + 1) from rfl,
      ih (j + 1)]
    simp only [uniformUnitSample]
    push_cast
    ring

/-- Telescoping of the Simpson 1-4-1 sum over `2M + 1` uniform unit-height
points. -/
theorem simpsonsArea_uniform_unit (k : ℕ) :
    ∀ (m j : ℕ),
      simpsonsArea ((List.range' j (2 * m + 1)).map (uniformUnitSample k)) =
        10 * ((j : ℚ) + 2 * m) / ((k : ℚ) - 1) - 10 * (j : ℚ) / ((k : ℚ) - 1) := by
  intro m
  induction m with
  | zero => intro j; simp [List.range', simpsonsArea]
  | succ m ih =>
    intro j
    rw [show List.range' j (2 * (m + 1) + 1) =
        j :: (j + 1) :: List.range' (j + 2) (2 * m + 1) from rfl,
      List.map_cons, List.map_cons,
      show List.range' (j + 2) (2 * m + 1) = (j + 2) :: List.range' (j + 3) (2 * m) from rfl,
      List.map_cons, simpsonsArea, ← List.map_cons,
      show (j + 2) :: List.range' (j + 3) (2 * m) = List.range' (j + 2) (2 * m + 1) from rfl,
      ih (j + 2)]
    simp only [uniformUnitSample]
    push_cast
    ring

/-- C9: integrating `y = 1` over `[0, 10]` at any uniform sampling returns
area 10 within 1e-9 — trapezoidal for any point count ≥ 2, Simpson for any
odd point count ≥ 3 (the areas are exactly 10 over `ℚ`). -/
theorem integrate_constant_one (k : ℕ) (hk : 2 ≤ k) :
    |(trapz (uniformUnitPoints k)).area - 10| ≤ 1 / 10 ^ 9 ∧
    (3 ≤ k → k % 2 = 1 → |(simpsons (uniformUnitPoints k)).area - 10| ≤ 1 / 10 ^ 9) := by
  have hlen : (uniformUnitPoints k).length = k := by
    simp [uniformUnitPoints]
  have harea : trapzArea (uniformUnitPoints k) = 10 := by
    obtain ⟨m, rfl⟩ : ∃ m, k = m + 1 := ⟨k - 1, by omega⟩
    have hm : ((m : ℚ)) ≠ 0 := Nat.cast_ne_zero.mpr (by omega)
    rw [uniformUnitPoints, List.range_eq_range', trapzArea_uniform_unit (m + 1) m 0]
    push_cast
    rw [show ((m : ℚ) + 1 - 1) = (m : ℚ) by ring, zero_add, mul_div_assoc, div_self hm]
    ring
  constructor
  · have h2 : ¬ (uniformUnitPoints k).length < 2 := by omega
    rw [trapz, if_neg h2]
    simp [harea]
  · intro h3 hodd
    have hs : ¬ ((uniformUnitPoints k).length < 3 ∨ (uniformUnitPoints k).length % 2 = 0) := by
      omega
    rw [simpsons, if_neg hs]
    have hsarea : simpsonsArea (uniformUnitPoints k) = 10 := by
      obtain ⟨m, rfl⟩ : ∃ m, k = 2 * m + 1 := ⟨k / 2, by omega⟩
      have hm : ((2 : ℚ) * m) ≠ 0 := by
        have : ((m : ℚ)) ≠ 0 := Nat.cast_ne_zero.mpr (by omega)
        positivity
      rw [uniformUnitPoints, List.range_eq_range', simpsonsArea_uniform_unit (2 * m + 1) m 0]
      push_cast
      rw [show ((2 : ℚ) * m + 1 - 1) = 2 * m by ring, zero_add, mul_div_assoc, div_self hm]
      ring
    simp [hsarea]

/-- C9 witness: both rules give exactly-10 areas for 5 uniform points. -/
theorem integrate_constant_one_witness :
    (2 ≤ 5 ∧ 3 ≤ 5 ∧ 5 % 2 = 1) ∧
    |(trapz (uniformUnitPoints 5)).area - 10| ≤ 1 / 10 ^ 9 ∧
    |(simpsons (uniformUnitPoints 5)).area - 10| ≤ 1 / 10 ^ 9 :=
  ⟨by decide,
    (integrate_constant_one 5 (by decide)).1,
    (integrate_constant_one 5 (by decide)).2 (by decide) (by decide)⟩

/-! ### Claim C6: convolution of a constant input -/

/-- `getD` on a replicated list is the replicated value at in-range indices. -/
theorem getD_replicate_of_lt (c : ℚ) : ∀ (n m : ℕ), m < n →
    (List.replicate n c).getD m 0 = c := by
  intro n
  induction n with
  | zero => omega
  | succ n ih =>
    intro m hm
    cases m with
    | zero => rfl
    | succ m => exact ih m (by omega)

/-- Every edge policy resolves to some in-range sample, so on a constant
array `getDataValue` is that constant. -/
theorem getDataValue_replicate (n : ℕ) (hn : 1 ≤ n) (c : ℚ) (index : ℤ)
    (mode : EdgeMode) : getDataValue (List.replicate n c) index mode = c := by
  rw [getDataValue.eq_def]
  simp only [List.length_replicate]
  split
  · exact getD_replicate_of_lt c n index.toNat (by omega)
  · split <;> split <;> exact getD_replicate_of_lt c n _ (by omega)

/-- Reading a list back through `getD` over its index range. -/
theorem map_getD_range : ∀ (l : List ℚ),
    (List.range l.length).map (fun j => l.getD j 0) = l := by
  intro l
  induction l with
  | nil => rfl
  | cons a t ih =>
    rw [List.length_cons, List.range_succ_eq_map, List.map_cons, List.map_map,
      show ((fun j => (a :: t).getD j 0) ∘ fun j => j + 1) = fun j => t.getD j 0 from rfl,
      ih]
    rfl

/-- C6: convolving a constant array of value `c` (length ≥ 1) with any kernel
whose coefficients sum to 1 returns `c` at every output position, under each
edge mode, exactly. -/
theorem convolve_constant (n : ℕ) (hn : 1 ≤ n) (c : ℚ) (kernel : List ℚ)
    (hker : kernel ≠ []) (hsum : kernel.sum = 1) (mode : EdgeMode) :
    ∃ r, convolve (List.replicate n c) kernel mode = .ok r ∧
      r.result.length = n ∧ ∀ i < n, r.result.getD i 0 = c := by
  have hne : List.replicate n c ≠ [] := by
    simp only [ne_eq, List.replicate_eq_nil_iff]
    omega
  rw [convolve, if_neg hne, if_neg hker]
  refine ⟨_, rfl, by simp, ?_⟩
  intro i hi
  have hentry :
      ((List.range kernel.length).map fun (j : ℕ) =>
          getDataValue (List.replicate n c)
            ((i : ℤ) - (kernel.length / 2 : ℕ) + (j : ℤ)) mode * kernel.getD j 0) =
        (List.range kernel.length).map fun (j : ℕ) => kernel.getD j 0 * c := by
    refine List.map_congr_left fun j _ => ?_
    rw [getDataValue_replicate n hn, mul_comm]
  have hlenrep : (List.replicate n c).length = n := List.length_replicate n c
  simp only [ConvolutionResult.result, hlenrep]
  show (((List.range n).map fun (i : ℕ) =>
      ((List.range kernel.length).map fun (j : ℕ) =>
        getDataValue (List.replicate n c)
          ((i : ℤ) - (kernel.length / 2 : ℕ) + (j : ℤ)) mode * kernel.getD j 0).sum).get? i).getD 0
      = c
  rw [List.get?_map, List.get?_range hi]
  simp only [Option.map_some', Option.getD_some]
  rw [hentry, List.sum_map_mul_right, map_getD_range, hsum, one_mul]

/-- C6 witness: a constant array of 2s convolved with a normalized 3-tap
kernel under mirror edges stays 2 everywhere. -/
theorem convolve_constant_witness :
    (1 ≤ 3 ∧ ([(1 : ℚ) / 4, 1 / 2, 1 / 4] ≠ []) ∧ ([(1 : ℚ) / 4, 1 / 2, 1 / 4]).sum = 1) ∧
    ∃ r, convolve (List.replicate 3 (2 : ℚ)) [1 / 4, 1 / 2, 1 / 4] .mirror = .ok r ∧
      r.result.length = 3 ∧ ∀ i < 3, r.result.getD i 0 = 2 :=
  ⟨⟨by omega, by simp, by norm_num⟩,
    convolve_constant 3 (by omega) 2 [1 / 4, 1 / 2, 1 / 4] (by simp) (by norm_num) .mirror⟩

/-! ### Claim C2: rubberband baseline never crosses the data -/

/-- Pointwise `Forall₂` transfer along a plain `map`. -/
theorem forall₂_map_self {R : DataPoint → DataPoint → Prop} (g : DataPoint → DataPoint)
    (hg : ∀ p, R (g p) p) : ∀ data : List DataPoint, List.Forall₂ R (data.map g) data := by
  intro data
  induction data with
  | nil => exact List.Forall₂.nil
  | cons a t ih => exact List.Forall₂.cons (hg a) ih

/-- Pointwise `Forall₂` transfer along a map over an enumerated list. -/
theorem forall₂_enumFrom_map {R : DataPoint → DataPoint → Prop}
    (g : ℕ × DataPoint → DataPoint) (hg : ∀ ip : ℕ × DataPoint, R (g ip) ip.2) :
    ∀ (data : List DataPoint) (start : ℕ),
      List.Forall₂ R ((data.enumFrom start).map g) data := by
  intro data
  induction data with
  | nil => intro start; exact List.Forall₂.nil
  | cons a t ih =>
    intro start
    rw [show (a :: t).enumFrom start = (start, a) :: t.enumFrom (start + 1) from rfl,
      List.map_cons]
    exact List.Forall₂.cons (hg (start, a)) (ih (start + 1))

/-- C2: the rubberband baseline is aligned 1:1 with its input and, at every
index, lies at or below the data current for the forward direction and at or
above it for the reverse direction, for every input and configuration. -/
theorem rubberband_never_crosses_data (data : List DataPoint) (config : RubberbandConfig) :
    List.Forall₂ (fun b d => b.current ≤ d.current)
      (rubberbandBaseline data .forward config) data ∧
    List.Forall₂ (fun b d => d.current ≤ b.current)
      (rubberbandBaseline data .reverse config) data := by
  constructor
  · rw [rubberbandBaseline]
    split
    · exact forall₂_map_self _ (fun p => le_refl p.current) data
    · exact forall₂_enumFrom_map _
        (fun ip => by simp) data 0
  · rw [rubberbandBaseline]
    split
    · exact forall₂_map_self _ (fun p => le_refl p.current) data
    · exact forall₂_enumFrom_map _
        (fun ip => by simp) data 0

/-! ### Claim C1: charge integration points and charge unit -/

/-- Truncating a `range'` block by an upper bound on its elements. -/
theorem filter_lt_range' : ∀ (m s L : ℕ),
    (List.range' s m).filter (fun i => decide (i < L)) = List.range' s (min m (L - s)) := by
  intro m
  induction m with
  | zero => intro s L; simp
  | succ m ih =>
    intro s L
    rw [show List.range' s (m + 1) = s :: List.range' (s + 1) m from rfl, List.filter_cons]
    by_cases hs : s < L
    · rw [if_pos (by simpa using hs), ih (s + 1) L,
        show min (m + 1) (L - s) = min m (L - (s + 1)) + 1 by omega]
      rfl
    · rw [if_neg (by simpa using hs), ih (s + 1) L,
        show min m (L - (s + 1)) = 0 by omega,
        show min (m + 1) (L - s) = 0 by omega]
      rfl

/-- `buildIntegrationPoints` is the per-sample map over
`[startIndex, min(endIndex, length − 1)]`. -/
theorem buildIntegrationPoints_eq_map (data baseline : List DataPoint)
    (startIndex endIndex : ℕ) (useTime : Bool) :
    buildIntegrationPoints data baseline startIndex endIndex useTime =
      (List.range' startIndex
          (min (endIndex + 1 - startIndex) (data.length - startIndex))).map fun i =>
        ({ x := if useTime ∧ (data.getD i default).time.isSome
              then (data.getD i default).time.getD 0
              else (data.getD i default).potential
           y := (data.getD i default).current - (baseline.getD i default).current } :
          DataPoint2D) := by
  rw [buildIntegrationPoints, filter_lt_range']

/-- Every peak built by `findCVPeaks` carries the charge unit selected from
the first smoothed sample's time field, and its area is the integration of
its own boundary range under that same time flag. -/
theorem findCVPeaks_mem_fields (smoothed baseline : List DataPoint) (corrected : List ℚ)
    (direction : Direction) (thr : ℚ) (p : CVPeakResult)
    (hp : p ∈ findCVPeaks smoothed baseline corrected direction thr) :
    p.chargeUnit = (if headHasTime smoothed then ChargeUnit.C else ChargeUnit.VA) ∧
    p.area = integratePeakArea smoothed baseline p.startIndex p.endIndex
      (headHasTime smoothed) := by
  simp only [findCVPeaks] at hp
  split at hp
  · simp at hp
  · split at hp
    · simp at hp
    · split at hp <;>
      · rw [(List.perm_insertionSort _ _).mem_iff] at hp
        obtain ⟨peak, hpeak, rfl⟩ := List.mem_map.mp hp
        exact ⟨rfl, rfl⟩

/-- Concrete input refuting C1 as stated: only the first sample carries a
time value. -/
def cexSmoothed : List DataPoint :=
  [⟨0, 0, some 0, none⟩, ⟨1, 0, none, none⟩, ⟨2, 1, none, none⟩,
   ⟨3, 5, none, none⟩, ⟨4, 1, none, none⟩, ⟨5, 0, none, none⟩, ⟨6, 0, none, none⟩]

/-- Flat zero baseline for the counterexample input. -/
def cexBaseline : List DataPoint := (List.range 7).map fun (i : ℕ) => ⟨(i : ℚ), 0, none, none⟩

/-- Corrected signal of the counterexample input. -/
def cexCorrected : List ℚ := [0, 0, 1, 5, 1, 0, 0]

/-- Full evaluation of peak detection on the counterexample input. -/
theorem cex_findCVPeaks_eval :
    findCVPeaks cexSmoothed cexBaseline cexCorrected .forward (1 / 20) =
      [⟨3, 3, 5, 5, 5, 6, .C, 1, 5, 1, 5, .oxidation⟩] := by
  norm_num [findCVPeaks, findCVCandidates, buildPeakRecord, cexSmoothed, cexBaseline,
    cexCorrected, computeProminence, valleyWalk, mergePeaks, mergeOuter, mergeInner,
    boundaryWalk, findPeakBoundaries, interpolatePeakPotential, headHasTime,
    buildIntegrationPoints, integratePeakArea, simpsons, simpsonsArea, trapz, trapzArea,
    List.insertionSort, List.orderedInsert, List.range', List.range_succ,
    List.filterMap, List.filter, List.foldl]

/-- C1 counterexample: on `cexSmoothed` (time present only on sample 0) a
peak is detected whose charge unit is Coulombs even though not every sample
has a time value — the code keys the choice on the first sample only,
refuting the claim's "every sample has a time value" condition. -/
theorem charge_unit_every_sample_counterexample :
    (∃ p ∈ findCVPeaks cexSmoothed cexBaseline cexCorrected .forward (1 / 20),
        p.chargeUnit = ChargeUnit.C) ∧
    ¬ (∀ p ∈ cexSmoothed, p.time ≠ none) := by
  constructor
  · exact ⟨⟨3, 3, 5, 5, 5, 6, .C, 1, 5, 1, 5, .oxidation⟩,
      by rw [cex_findCVPeaks_eval]; exact List.mem_singleton.mpr rfl, rfl⟩
  · intro h
    exact h ⟨1, 0, none, none⟩ (by simp [cexSmoothed]) rfl

/-- C1 (amended): for every detected peak, the charge unit is Coulombs
exactly when the first smoothed sample has a time value; the area integrates
the points over `[startIndex, min(endIndex, n−1)]`, each with y the
baseline-corrected current and x the sample's time when the first sample has
a time value and the sample itself has one, the sample's potential
otherwise. -/
theorem charge_unit_first_sample_and_points (smoothed baseline : List DataPoint)
    (corrected : List ℚ) (direction : Direction) (thr : ℚ) (p : CVPeakResult)
    (hp : p ∈ findCVPeaks smoothed baseline corrected direction thr) :
    (p.chargeUnit = ChargeUnit.C ↔ headHasTime smoothed = true) ∧
    p.area = integratePeakArea smoothed baseline p.startIndex p.endIndex
      (headHasTime smoothed) ∧
    buildIntegrationPoints smoothed baseline p.startIndex p.endIndex (headHasTime smoothed) =
      (List.range' p.startIndex
          (min (p.endIndex + 1 - p.startIndex) (smoothed.length - p.startIndex))).map fun i =>
        ({ x := if headHasTime smoothed ∧ (smoothed.getD i default).time.isSome
              then (smoothed.getD i default).time.getD 0
              else (smoothed.getD i default).potential
           y := (smoothed.getD i default).current - (baseline.getD i default).current } :
          DataPoint2D) := by
  obtain ⟨hcu, harea⟩ :=
    findCVPeaks_mem_fields smoothed baseline corrected direction thr p hp
  refine ⟨?_, harea, buildIntegrationPoints_eq_map smoothed baseline _ _ _⟩
  rw [hcu]
  cases headHasTime smoothed <;> simp

/-- C1 (amended) witness: the amended statement at the concrete
counterexample input and its detected peak. -/
theorem charge_unit_first_sample_and_points_witness :
    ((⟨3, 3, 5, 5, 5, 6, .C, 1, 5, 1, 5, .oxidation⟩ : CVPeakResult) ∈
        findCVPeaks cexSmoothed cexBaseline cexCorrected .forward (1 / 20)) ∧
    (((⟨3, 3, 5, 5, 5, 6, .C, 1, 5, 1, 5, .oxidation⟩ : CVPeakResult).chargeUnit =
          ChargeUnit.C ↔ headHasTime cexSmoothed = true) ∧
      (⟨3, 3, 5, 5, 5, 6, .C, 1, 5, 1, 5, .oxidation⟩ : CVPeakResult).area =
        integratePeakArea cexSmoothed cexBaseline
          (⟨3, 3, 5, 5, 5, 6, .C, 1, 5, 1, 5, .oxidation⟩ : CVPeakResult).startIndex
          (⟨3, 3, 5, 5, 5, 6, .C, 1, 5, 1, 5, .oxidation⟩ : CVPeakResult).endIndex
          (headHasTime cexSmoothed) ∧
      buildIntegrationPoints cexSmoothed cexBaseline
          (⟨3, 3, 5, 5, 5, 6, .C, 1, 5, 1, 5, .oxidation⟩ : CVPeakResult).startIndex
          (⟨3, 3, 5, 5, 5, 6, .C, 1, 5, 1, 5, .oxidation⟩ : CVPeakResult).endIndex
          (headHasTime cexSmoothed) =
        (List.range' (⟨3, 3, 5, 5, 5, 6, .C, 1, 5, 1, 5, .oxidation⟩ : CVPeakResult).startIndex
            (min ((⟨3, 3, 5, 5, 5, 6, .C, 1, 5, 1, 5, .oxidation⟩ : CVPeakResult).endIndex + 1 -
                (⟨3, 3, 5, 5, 5, 6, .C, 1, 5, 1, 5, .oxidation⟩ : CVPeakResult).startIndex)
              (cexSmoothed.length -
                (⟨3, 3, 5, 5, 5, 6, .C, 1, 5, 1, 5, .oxidation⟩ : CVPeakResult).startIndex))).map
          fun i =>
            ({ x := if headHasTime cexSmoothed ∧ (cexSmoothed.getD i default).time.isSome
                  then (cexSmoothed.getD i default).time.getD 0
                  else (cexSmoothed.getD i default).potential
               y := (cexSmoothed.getD i default).current -
                 (cexBaseline.getD i default).current } : DataPoint2D)) :=
  ⟨by rw [cex_findCVPeaks_eval]; exact List.mem_singleton.mpr rfl,
    charge_unit_first_sample_and_points cexSmoothed cexBaseline cexCorrected .forward
      (1 / 20) ⟨3, 3, 5, 5, 5, 6, .C, 1, 5, 1, 5, .oxidation⟩
      (by rw [cex_findCVPeaks_eval]; exact List.mem_singleton.mpr rfl)⟩

/-! ### Claim C5: successful smoothing drops the optional sample fields -/

/-- Registry hits always yield a non-empty normalized smoothing kernel. -/
theorem normalized_kernel_ne_nil (w : ℕ) (h : (SG_KERNEL_REGISTRY w).isSome) :
    ∃ k, getNormalizedSmoothingKernel w = some k ∧ k ≠ [] := by
  rcases hreg : SG_KERNEL_REGISTRY w with _ | ks
  · rw [hreg] at h
    simp at h
  · refine ⟨_, by rw [getNormalizedSmoothingKernel, hreg]; rfl, ?_⟩
    have hcoef : ks.smoothing.coefficients ≠ [] := by
      unfold SG_KERNEL_REGISTRY at hreg
      split at hreg <;> try exact Option.noConfusion hreg
      all_goals
        obtain rfl := Option.some_inj.mp hreg
        simp [SG_KERNELS_5, SG_KERNELS_9, SG_KERNELS_11, SG_KERNELS_15, SG_KERNELS_21]
    simpa using hcoef

/-- `convolve` succeeds on non-empty data and kernel. -/
theorem convolve_ok (d ker : List ℚ) (mode : EdgeMode) (hd : d ≠ []) (hk : ker ≠ []) :
    ∃ c, convolve d ker mode = .ok c := by
  rw [convolve, if_neg hd, if_neg hk]
  exact ⟨_, rfl⟩

/-- On a registry hit, `applySmoothing` takes its success path and the output
samples carry only potential and current: `time` and `appliedPotential` are
absent. -/
theorem applySmoothing_success_drops_fields (sqrtFn : ℚ → ℚ) (data : List DataPoint)
    (config : AnalysisConfig) (hdata : data ≠ [])
    (hwin : (SG_KERNEL_REGISTRY config.smoothingWindow).isSome) :
    ∃ r, applySmoothing sqrtFn data config = .ok r ∧
      ∀ p ∈ r.smoothedData, p.time = none ∧ p.appliedPotential = none := by
  obtain ⟨k, hk, hkne⟩ := normalized_kernel_ne_nil config.smoothingWindow hwin
  obtain ⟨conv, hconv⟩ := convolve_ok (data.map (·.current)) k .mirror
    (by simpa using hdata) hkne
  rw [applySmoothing, if_neg hdata]
  simp only [hk, bind, Except.bind, hconv]
  refine ⟨_, rfl, ?_⟩
  intro p hp
  obtain ⟨ip, _, rfl⟩ := List.mem_map.mp hp
  exact ⟨rfl, rfl⟩

/-- `headHasTime` is false when no sample has a time value. -/
theorem headHasTime_eq_false (l : List DataPoint) (h : ∀ p ∈ l, p.time = none) :
    headHasTime l = false := by
  cases l with
  | nil => rfl
  | cons a t => simp [headHasTime, h a (List.mem_cons_self a t)]

/-- C5: for every non-empty input, when smoothing is enabled and succeeds
(supported window), the smoothing output carries only potential and current —
`time` and `appliedPotential` are dropped — and consequently every peak of the
orchestrated analysis integrates over potential with charge unit 'V·A', even
if every raw sample carried a time value. -/
theorem smoothing_drops_time_and_forces_va (sqrtFn : ℚ → ℚ) (data : List DataPoint)
    (config : AnalysisConfig) (direction : Direction) (hdata : data ≠ [])
    (hwin : (SG_KERNEL_REGISTRY config.smoothingWindow).isSome)
    (hsm : config.smoothingEnabled = true) :
    (∃ r, applySmoothing sqrtFn data config = .ok r ∧
      ∀ p ∈ r.smoothedData, p.time = none ∧ p.appliedPotential = none) ∧
    ∀ pk ∈ (analyzeCVScan sqrtFn data config direction).peaks,
      pk.chargeUnit = ChargeUnit.VA := by
  obtain ⟨r, hr, hnone⟩ :=
    applySmoothing_success_drops_fields sqrtFn data config hdata hwin
  refine ⟨⟨r, hr, hnone⟩, ?_⟩
  intro pk hpk
  rw [analyzeCVScan, if_neg hdata] at hpk
  simp only [hsm, if_true, hr] at hpk
  have hfields := (findCVPeaks_mem_fields _ _ _ _ _ pk hpk).1
  rw [headHasTime_eq_false r.smoothedData fun p hp => (hnone p hp).1] at hfields
  simpa using hfields

/-- C5 witness: a concrete 5-sample scan where every raw sample has a time
value; smoothing succeeds, drops the fields, and the analysis reports only
'V·A' charge units. -/
theorem smoothing_drops_time_and_forces_va_witness :
    (([⟨0, 0, some 0, some 0⟩, ⟨1, 0, some 1, some 1⟩, ⟨2, 1, some 2, some 2⟩,
        ⟨3, 0, some 3, some 3⟩, ⟨4, 0, some 4, some 4⟩] : List DataPoint) ≠ [] ∧
      (SG_KERNEL_REGISTRY (5 : ℕ)).isSome ∧ true = true) ∧
    ((∃ r, applySmoothing id
        [⟨0, 0, some 0, some 0⟩, ⟨1, 0, some 1, some 1⟩, ⟨2, 1, some 2, some 2⟩,
          ⟨3, 0, some 3, some 3⟩, ⟨4, 0, some 4, some 4⟩]
        ⟨true, 5, .rubberband, 1000000, 1 / 100, 40, 80, 1 / 10, 1 / 20⟩ = .ok r ∧
      ∀ p ∈ r.smoothedData, p.time = none ∧ p.appliedPotential = none) ∧
    ∀ pk ∈ (analyzeCVScan id
        [⟨0, 0, some 0, some 0⟩, ⟨1, 0, some 1, some 1⟩, ⟨2, 1, some 2, some 2⟩,
          ⟨3, 0, some 3, some 3⟩, ⟨4, 0, some 4, some 4⟩]
        ⟨true, 5, .rubberband, 1000000, 1 / 100, 40, 80, 1 / 10, 1 / 20⟩ .forward).peaks,
      pk.chargeUnit = ChargeUnit.VA) := by
  refine ⟨⟨by simp, by decide, rfl⟩, ?_⟩
  exact smoothing_drops_time_and_forces_va id _ _ .forward (by simp) (by decide) rfl

/-! ### Claim C3: the ASLS bands assemble diag(w) + λ·D₂ᵀD₂ -/

/-- Row `k` of the discrete second-difference operator `D₂` (rows
`k = 0..n−3` over `n` columns): entries 1, −2, 1 at columns `k`, `k+1`,
`k+2`.  Modelled from the claim's `D₂`. -/
def secondDiff (k i : ℕ) : ℚ :=
  (if i = k then 1 else 0) - 2 * (if i = k + 1 then 1 else 0) +
    (if i = k + 2 then 1 else 0)

/-- Entry `(i, j)` of `D₂ᵀD₂` for length `n`. -/
def DtD (n i j : ℕ) : ℚ :=
  ∑ k in Finset.range (n - 2), secondDiff k i * secondDiff k j

/-- Entry `(i, j)` of `diag(w) + λ·D₂ᵀD₂`, the claim's matrix. -/
def specAslsMatrix (w : ℕ → ℚ) (lambda : ℚ) (n i j : ℕ) : ℚ :=
  (if i = j then w i else 0) + lambda * DtD n i j

/-- The symmetric banded matrix the solver assembles from its three bands. -/
def aslsMatrix (w : ℕ → ℚ) (lambda : ℚ) (n i j : ℕ) : ℚ :=
  if i = j then aslsBandA w lambda n i
  else if j + 1 = i then aslsBandE lambda n j
  else if i + 1 = j then aslsBandE lambda n i
  else if j + 2 = i then aslsBandF lambda
  else if i + 2 = j then aslsBandF lambda
  else 0

/-- A shifted-indicator product sums to a single indicator. -/
theorem sum_indicator_shift (i j s t : ℕ) (c₁ c₂ : ℚ) : ∀ m : ℕ,
    (∑ k in Finset.range m,
        (if i = k + s then c₁ else 0) * (if j = k + t then c₂ else 0)) =
      if s ≤ i ∧ i - s < m ∧ j + s = i + t then c₁ * c₂ else 0 := by
  intro m
  induction m with
  | zero => simp
  | succ m ih =>
    rw [Finset.sum_range_succ, ih]
    split_ifs <;> first | (exfalso; omega) | ring

/-- Pointwise expansion of a product of two `secondDiff` entries into the
nine indicator cross terms. -/
theorem secondDiff_mul_expand (k i j : ℕ) :
    secondDiff k i * secondDiff k j =
      (if i = k + 0 then (1 : ℚ) else 0) * (if j = k + 0 then (1 : ℚ) else 0)
    + (if i = k + 0 then (1 : ℚ) else 0) * (if j = k + 1 then (-2 : ℚ) else 0)
    + (if i = k + 0 then (1 : ℚ) else 0) * (if j = k + 2 then (1 : ℚ) else 0)
    + (if i = k + 1 then (-2 : ℚ) else 0) * (if j = k + 0 then (1 : ℚ) else 0)
    + (if i = k + 1 then (-2 : ℚ) else 0) * (if j = k + 1 then (-2 : ℚ) else 0)
    + (if i = k + 1 then (-2 : ℚ) else 0) * (if j = k + 2 then (1 : ℚ) else 0)
    + (if i = k + 2 then (1 : ℚ) else 0) * (if j = k + 0 then (1 : ℚ) else 0)
    + (if i = k + 2 then (1 : ℚ) else 0) * (if j = k + 1 then (-2 : ℚ) else 0)
    + (if i = k + 2 then (1 : ℚ) else 0) * (if j = k + 2 then (1 : ℚ) else 0) := by
  rw [secondDiff, secondDiff]
  split_ifs <;> first | (exfalso; omega) | ring

/-- Closed evaluation of `D₂ᵀD₂` entries as nine indicators. -/
theorem DtD_eval (n i j : ℕ) :
    DtD n i j =
      (if 0 ≤ i ∧ i - 0 < n - 2 ∧ j + 0 = i + 0 then (1 : ℚ) * 1 else 0)
    + (if 0 ≤ i ∧ i - 0 < n - 2 ∧ j + 0 = i + 1 then (1 : ℚ) * (-2) else 0)
    + (if 0 ≤ i ∧ i - 0 < n - 2 ∧ j + 0 = i + 2 then (1 : ℚ) * 1 else 0)
    + (if 1 ≤ i ∧ i - 1 < n - 2 ∧ j + 1 = i + 0 then (-2 : ℚ) * 1 else 0)
    + (if 1 ≤ i ∧ i - 1 < n - 2 ∧ j + 1 = i + 1 then (-2 : ℚ) * (-2) else 0)
    + (if 1 ≤ i ∧ i - 1 < n - 2 ∧ j + 1 = i + 2 then (-2 : ℚ) * 1 else 0)
    + (if 2 ≤ i ∧ i - 2 < n - 2 ∧ j + 2 = i + 0 then (1 : ℚ) * 1 else 0)
    + (if 2 ≤ i ∧ i - 2 < n - 2 ∧ j + 2 = i + 1 then (1 : ℚ) * (-2) else 0)
    + (if 2 ≤ i ∧ i - 2 < n - 2 ∧ j + 2 = i + 2 then (1 : ℚ) * 1 else 0) := by
  rw [DtD, Finset.sum_congr rfl fun k _ => secondDiff_mul_expand k i j]
  simp only [Finset.sum_add_distrib]
  rw [sum_indicator_shift i j 0 0 1 1 (n - 2), sum_indicator_shift i j 0 1 1 (-2) (n - 2),
    sum_indicator_shift i j 0 2 1 1 (n - 2), sum_indicator_shift i j 1 0 (-2) 1 (n - 2),
    sum_indicator_shift i j 1 1 (-2) (-2) (n - 2), sum_indicator_shift i j 1 2 (-2) 1 (n - 2),
    sum_indicator_shift i j 2 0 1 1 (n - 2), sum_indicator_shift i j 2 1 1 (-2) (n - 2),
    sum_indicator_shift i j 2 2 1 1 (n - 2)]

/-- `D₂ᵀD₂` is symmetric. -/
theorem DtD_symm (n i j : ℕ) : DtD n i j = DtD n j i := by
  rw [DtD, DtD]
  exact Finset.sum_congr rfl fun k _ => by ring

set_option maxHeartbeats 1600000 in
/-- The code's main diagonal equals the `w_i + λ·{1,5,6,...,6,5,1}` entry. -/
theorem bandA_eq_DtD (n : ℕ) (hn : 5 ≤ n) (w : ℕ → ℚ) (lambda : ℚ) (i : ℕ)
    (hi : i < n) : aslsBandA w lambda n i = w i + lambda * DtD n i i := by
  rw [aslsBandA, DtD_eval]
  split_ifs <;> first | (exfalso; omega) | ring

set_option maxHeartbeats 1600000 in
/-- The code's first sub-diagonal equals the `λ·{−2,−4,...,−4,−2}` entry. -/
theorem bandE_eq_DtD (n : ℕ) (hn : 5 ≤ n) (lambda : ℚ) (j : ℕ) (hj : j + 1 < n) :
    aslsBandE lambda n j = lambda * DtD n (j + 1) j := by
  rw [aslsBandE, DtD_eval]
  split_ifs <;> first | (exfalso; omega) | ring

set_option maxHeartbeats 1600000 in
/-- The code's second sub-diagonal equals the constant `λ` entry. -/
theorem bandF_eq_DtD (n : ℕ) (hn : 5 ≤ n) (lambda : ℚ) (j : ℕ) (hj : j + 2 < n) :
    aslsBandF lambda = lambda * DtD n (j + 2) j := by
  rw [aslsBandF, DtD_eval]
  split_ifs <;> first | (exfalso; omega) | ring

set_option maxHeartbeats 1600000 in
/-- Entries more than two off the diagonal vanish in `D₂ᵀD₂`. -/
theorem DtD_far (n i j : ℕ) (h : i + 3 ≤ j ∨ j + 3 ≤ i) : DtD n i j = 0 := by
  rw [DtD_eval]
  split_ifs <;> first | (exfalso; omega) | ring

/-- C3: for every weight vector, penalty λ and length n ≥ 5, the banded
matrix assembled by the ASLS solver equals `diag(w) + λ·D₂ᵀD₂`: main
diagonal `w_i + λ·{1,5,6,...,6,5,1}`, first off-diagonal `λ·{−2,−4,...,−4,−2}`,
second off-diagonal `λ·{1,...,1}`, and zero beyond the band. -/
theorem asls_matrix_eq_diag_w_add_DtD (n : ℕ) (hn : 5 ≤ n) (w : ℕ → ℚ)
    (lambda : ℚ) (i j : ℕ) (hi : i < n) (hj : j < n) :
    aslsMatrix w lambda n i j = specAslsMatrix w lambda n i j := by
  rw [aslsMatrix, specAslsMatrix]
  split_ifs with h1 h2 h3 h4 h5
  · subst h1
    rw [bandA_eq_DtD n hn w lambda i hi]
  · subst h2
    rw [bandE_eq_DtD n hn lambda j (by omega)]
    ring
  · subst h3
    rw [DtD_symm, bandE_eq_DtD n hn lambda i (by omega)]
    ring
  · subst h4
    rw [bandF_eq_DtD n hn lambda j (by omega)]
    ring
  · subst h5
    rw [DtD_symm, bandF_eq_DtD n hn lambda i (by omega)]
    ring
  · rw [DtD_far n i j (by omega)]
    ring

/-- C3 witness: the identity at `n = 6`, `w = id`, `λ = 7`, entry `(3, 2)`. -/
theorem asls_matrix_eq_diag_w_add_DtD_witness :
    ((5 : ℕ) ≤ 6 ∧ (3 : ℕ) < 6 ∧ (2 : ℕ) < 6) ∧
    aslsMatrix (fun i => (i : ℚ)) 7 6 3 2 = specAslsMatrix (fun i => (i : ℚ)) 7 6 3 2 :=
  ⟨by omega,
    asls_matrix_eq_diag_w_add_DtD 6 (by omega) (fun i => (i : ℚ)) 7 3 2 (by omega) (by omega)⟩

/-! ### Claim C4: idempotence of peak merging on prominence-sorted input -/

/-- The used set only grows along the inner absorption loop. -/
theorem mergeInner_used_subset (pk sep : ℕ) :
    ∀ (l : List PeakCandidate) (best : PeakCandidate) (used : Finset ℕ),
      used ⊆ (mergeInner pk sep l best used).2 := by
  intro l
  induction l with
  | nil => intro best used; exact Finset.Subset.refl used
  | cons o rest ih =>
    intro best used
    simp only [mergeInner]
    split_ifs with h1 h2 h3
    · exact ih best used
    · exact ((Finset.subset_insert _ _).trans (Finset.subset_insert _ _)).trans (ih o _)
    · exact (Finset.subset_insert _ _).trans (ih best _)
    · exact ih best used

/-- When no unused candidate is strictly more prominent than `best`, the
inner loop never switches `best`. -/
theorem mergeInner_best_of_le (pk sep : ℕ) :
    ∀ (l : List PeakCandidate) (best : PeakCandidate) (used : Finset ℕ),
      (∀ o ∈ l, o.index ∉ used → o.prominence ≤ best.prominence) →
      (mergeInner pk sep l best used).1 = best := by
  intro l
  induction l with
  | nil => intro best used _; rfl
  | cons o rest ih =>
    intro best used h
    simp only [mergeInner]
    split_ifs with h1 h2 h3
    · exact ih best used fun q hq hqu => h q (List.mem_cons_of_mem o hq) hqu
    · exact absurd h3 (not_lt.mpr
        (h o (List.mem_cons_self o rest) fun hu => h1 (Or.inr hu)))
    · exact ih best _ fun q hq hqu =>
        h q (List.mem_cons_of_mem o hq) fun hu => hqu (Finset.mem_insert_of_mem hu)
    · exact ih best used fun q hq hqu => h q (List.mem_cons_of_mem o hq) hqu

/-- When every candidate is the anchor itself, already used, or at least
`sep` away, the inner loop is the identity. -/
theorem mergeInner_inert (pk sep : ℕ) :
    ∀ (l : List PeakCandidate) (best : PeakCandidate) (used : Finset ℕ),
      (∀ o ∈ l, o.index = pk ∨ o.index ∈ used ∨ sep ≤ Nat.dist o.index pk) →
      mergeInner pk sep l best used = (best, used) := by
  intro l
  induction l with
  | nil => intro best used _; rfl
  | cons o rest ih =>
    intro best used h
    simp only [mergeInner]
    have hrest : ∀ q ∈ rest, q.index = pk ∨ q.index ∈ used ∨ sep ≤ Nat.dist q.index pk :=
      fun q hq => h q (List.mem_cons_of_mem o hq)
    rcases h o (List.mem_cons_self o rest) with ho | ho | ho
    · rw [if_pos (Or.inl ho)]
      exact ih best used hrest
    · rw [if_pos (Or.inr ho)]
      exact ih best used hrest
    · by_cases h1 : o.index = pk ∨ o.index ∈ used
      · rw [if_pos h1]
        exact ih best used hrest
      · rw [if_neg h1, if_neg (not_lt.mpr ho)]
        exact ih best used hrest

/-- A listed candidate whose index is distinct from the anchor and absent
from the final used set must lie at least `sep` away from the anchor. -/
theorem mergeInner_far (pk sep : ℕ) :
    ∀ (l : List PeakCandidate) (best : PeakCandidate) (used : Finset ℕ)
      (q : PeakCandidate), q ∈ l → q.index ≠ pk →
      q.index ∉ (mergeInner pk sep l best used).2 →
      sep ≤ Nat.dist q.index pk := by
  intro l
  induction l with
  | nil => intro best used q hq _ _; simp at hq
  | cons o rest ih =>
    intro best used q hq hqpk hqnot
    simp only [mergeInner] at hqnot
    rcases List.mem_cons.mp hq with rfl | hq'
    · by_cases h1 : q.index = pk ∨ q.index ∈ used
      · rcases h1 with h1 | h1
        · exact absurd h1 hqpk
        · rw [if_pos (Or.inr h1)] at hqnot
          exact absurd (mergeInner_used_subset pk sep rest best used h1) hqnot
      · rw [if_neg h1] at hqnot
        by_cases h2 : Nat.dist q.index pk < sep
        · rw [if_pos h2] at hqnot
          split_ifs at hqnot with h3
          · exact absurd (mergeInner_used_subset pk sep rest q _
              (Finset.mem_insert_of_mem (Finset.mem_insert_self _ _))) hqnot
          · exact absurd (mergeInner_used_subset pk sep rest best _
              (Finset.mem_insert_self _ _)) hqnot
        · exact not_lt.mp h2
    · split_ifs at hqnot with h1 h2 h3
      · exact ih best used q hq' hqpk hqnot
      · exact ih o _ q hq' hqpk hqnot
      · exact ih best _ q hq' hqpk hqnot
      · exact ih best used q hq' hqpk hqnot

/-- On prominence-sorted input the outer loop emits a subset of its worklist
whose members were unused, pairwise at least `sep` apart with distinct
indices, and still sorted by prominence. -/
theorem mergeOuter_sorted_props (all : List PeakCandidate) (sep : ℕ) :
    ∀ (rest : List PeakCandidate) (used : Finset ℕ),
      List.Pairwise (fun a b => b.prominence ≤ a.prominence) rest →
      (∀ q ∈ rest, q ∈ all) →
      (∀ q ∈ all, q.index ∉ used → q ∈ rest) →
      (∀ q ∈ mergeOuter all sep rest used, q ∈ rest) ∧
      (∀ q ∈ mergeOuter all sep rest used, q.index ∉ used) ∧
      List.Pairwise (fun a b => a.index ≠ b.index ∧ sep ≤ Nat.dist a.index b.index)
        (mergeOuter all sep rest used) ∧
      List.Pairwise (fun a b => b.prominence ≤ a.prominence)
        (mergeOuter all sep rest used) := by
  intro rest
  induction rest with
  | nil =>
    intro used _ _ _
    simp only [mergeOuter]
    exact ⟨fun q hq => absurd hq (List.not_mem_nil q),
      fun q hq => absurd hq (List.not_mem_nil q), List.Pairwise.nil, List.Pairwise.nil⟩
  | cons p rest' ih =>
    intro used hpw hsub hcov
    simp only [mergeOuter]
    split_ifs with hp
    · have hcov' : ∀ q ∈ all, q.index ∉ used → q ∈ rest' := by
        intro q hq hqu
        rcases List.mem_cons.mp (hcov q hq hqu) with rfl | h
        · exact absurd hp hqu
        · exact h
      obtain ⟨s1, s2, s3, s4⟩ := ih used (List.Pairwise.of_cons hpw)
        (fun q hq => hsub q (List.mem_cons_of_mem p hq)) hcov'
      exact ⟨fun q hq => List.mem_cons_of_mem p (s1 q hq), s2, s3, s4⟩
    · have hbest : (mergeInner p.index sep all p used).1 = p := by
        apply mergeInner_best_of_le
        intro o ho hou
        rcases List.mem_cons.mp (hcov o ho hou) with rfl | h
        · exact le_refl _
        · exact (List.pairwise_cons.mp hpw).1 o h
      rw [hbest]
      have hmono : used ⊆ (mergeInner p.index sep all p used).2 :=
        mergeInner_used_subset p.index sep all p used
      have hused' : used ⊆ insert p.index (mergeInner p.index sep all p used).2 :=
        hmono.trans (Finset.subset_insert _ _)
      have hcov' : ∀ q ∈ all,
          q.index ∉ insert p.index (mergeInner p.index sep all p used).2 → q ∈ rest' := by
        intro q hq hqu
        have hnu : q.index ∉ used := fun h => hqu (hused' h)
        rcases List.mem_cons.mp (hcov q hq hnu) with rfl | h
        · exact absurd (Finset.mem_insert_self _ _) hqu
        · exact h
      obtain ⟨s1, s2, s3, s4⟩ := ih (insert p.index (mergeInner p.index sep all p used).2)
        (List.Pairwise.of_cons hpw) (fun q hq => hsub q (List.mem_cons_of_mem p hq)) hcov'
      refine ⟨?_, ?_, ?_, ?_⟩
      · intro q hq
        rcases List.mem_cons.mp hq with rfl | hq'
        · exact List.mem_cons_self _ _
        · exact List.mem_cons_of_mem p (s1 q hq')
      · intro q hq
        rcases List.mem_cons.mp hq with rfl | hq'
        · exact hp
        · exact fun hqu => s2 q hq' (hused' hqu)
      · rw [List.pairwise_cons]
        refine ⟨?_, s3⟩
        intro q hq
        have hqn : q.index ∉ insert p.index (mergeInner p.index sep all p used).2 := s2 q hq
        have hqne : q.index ≠ p.index := fun h => hqn (h ▸ Finset.mem_insert_self _ _)
        refine ⟨fun h => hqne h.symm, ?_⟩
        have hqall : q ∈ all := hsub q (List.mem_cons_of_mem p (s1 q hq))
        have hqr2 : q.index ∉ (mergeInner p.index sep all p used).2 :=
          fun h => hqn (Finset.mem_insert_of_mem h)
        rw [Nat.dist_comm]
        exact mergeInner_far p.index sep all p used q hqall hqne hqr2
      · rw [List.pairwise_cons]
        exact ⟨fun q hq => (List.pairwise_cons.mp hpw).1 q (s1 q hq), s4⟩

/-- On a worklist of pairwise index-distinct, pairwise far-apart, unused
candidates the outer loop is the identity. -/
theorem mergeOuter_inert (R : List PeakCandidate) (sep : ℕ)
    (hD : ∀ a ∈ R, ∀ b ∈ R, a.index ≠ b.index → sep ≤ Nat.dist a.index b.index) :
    ∀ (rest : List PeakCandidate) (used : Finset ℕ),
      (∀ q ∈ rest, q ∈ R) →
      List.Pairwise (fun a b => a.index ≠ b.index) rest →
      (∀ q ∈ rest, q.index ∉ used) →
      mergeOuter R sep rest used = rest := by
  intro rest
  induction rest with
  | nil => intro used _ _ _; rfl
  | cons p rest' ih =>
    intro used hsub hpw hfree
    simp only [mergeOuter]
    rw [if_neg (hfree p (List.mem_cons_self p rest'))]
    have hinert : mergeInner p.index sep R p used = (p, used) := by
      apply mergeInner_inert
      intro o ho
      by_cases h : o.index = p.index
      · exact Or.inl h
      · exact Or.inr (Or.inr (hD o ho p (hsub p (List.mem_cons_self p rest')) h))
    rw [hinert]
    show p :: mergeOuter R sep rest' (insert p.index used) = p :: rest'
    congr 1
    apply ih
    · exact fun q hq => hsub q (List.mem_cons_of_mem p hq)
    · exact List.Pairwise.of_cons hpw
    · intro q hq h
      rcases Finset.mem_insert.mp h with h' | h'
      · exact (List.pairwise_cons.mp hpw).1 q hq h'.symm
      · exact hfree q (List.mem_cons_of_mem p hq) h'

/-- C4: on a prominence-sorted candidate list, applying the merge step to
its own output returns that output unchanged, for every minimum-separation
value. -/
theorem mergePeaks_idempotent (peaks : List PeakCandidate) (minSeparation : ℕ)
    (hsorted : List.Pairwise (fun a b => b.prominence ≤ a.prominence) peaks) :
    mergePeaks (mergePeaks peaks minSeparation) minSeparation =
      mergePeaks peaks minSeparation := by
  by_cases hlen : peaks.length ≤ 1
  · have h1 : mergePeaks peaks minSeparation = peaks := by
      rw [mergePeaks, if_pos hlen]
    rw [h1, mergePeaks, if_pos hlen]
  · have hR : mergePeaks peaks minSeparation = mergeOuter peaks minSeparation peaks ∅ := by
      rw [mergePeaks, if_neg hlen]
    obtain ⟨s1, s2, s3, s4⟩ := mergeOuter_sorted_props peaks minSeparation peaks ∅ hsorted
      (fun q hq => hq) (fun q hq _ => hq)
    rw [hR]
    by_cases hlen2 : (mergeOuter peaks minSeparation peaks ∅).length ≤ 1
    · rw [mergePeaks, if_pos hlen2]
    · rw [mergePeaks, if_neg hlen2]
      have hsym : Symmetric (fun a b : PeakCandidate =>
          a.index ≠ b.index ∧ minSeparation ≤ Nat.dist a.index b.index) := by
        intro x y h
        exact ⟨h.1.symm, by rw [Nat.dist_comm]; exact h.2⟩
      apply mergeOuter_inert
      · intro a ha b hb hab
        have hne : a ≠ b := fun h => hab (h ▸ rfl)
        exact (s3.forall hsym ha hb hne).2
      · exact fun q hq => hq
      · exact s3.imp fun h => h.1
      · intro q _
        exact Finset.not_mem_empty q.index

/-- C4 witness: a concrete sorted three-candidate list with separation 10. -/
theorem mergePeaks_idempotent_witness :
    List.Pairwise (fun a b => b.prominence ≤ a.prominence)
      ([⟨0, 5, 5⟩, ⟨9, 4, 4⟩, ⟨18, 3, 3⟩] : List PeakCandidate) ∧
    mergePeaks (mergePeaks [⟨0, 5, 5⟩, ⟨9, 4, 4⟩, ⟨18, 3, 3⟩] 10) 10 =
      mergePeaks [⟨0, 5, 5⟩, ⟨9, 4, 4⟩, ⟨18, 3, 3⟩] 10 :=
  ⟨by norm_num [List.pairwise_cons],
    mergePeaks_idempotent _ 10 (by norm_num [List.pairwise_cons])⟩

end CV
